import Mathlib

/-!
Verification of the property-graph codec of the `xmp` package
(files `decode.go`, `encode.go`, `xmp.go`, `ns.go`, `jvxml/`).

The Go source is embedded shallowly: XML token streams become lists of
`Token`, the `Raw` value tree becomes an inductive type, Go maps become
association lists with first-insertion order, and the recursive decoder
and encoder take an explicit fuel argument (always ample for the inputs
considered, since every recursive call strictly shrinks its token slice).
-/

set_option maxHeartbeats 2000000

namespace Xmp

/-- A namespace-qualified XML name, mirroring `encoding/xml.Name`
(`Space`, `Local`). -/
structure XName where
  space : String
  loc : String
  deriving DecidableEq, Repr

/-- An XML attribute, mirroring `encoding/xml.Attr`. -/
abbrev Attr := XName × String

/-- XML tokens as consumed and produced by the codec. `emptyElt` mirrors
`jvxml.EmptyElement` (self-closing tag), which only the encoder emits;
the reader reports a self-closing tag as a start token followed by an
end token. -/
inductive Token where
  | start (name : XName) (attrs : List Attr)
  | stop (name : XName)
  | charData (s : String)
  | emptyElt (name : XName) (attrs : List Attr)
  | procInst (target : String) (inst : String)
  deriving DecidableEq, Repr

/-- `RawArrayType` from `xmp.go`: Unordered / Ordered / Alternative. -/
inductive ArrKind where
  | unordered
  | ordered
  | alternative
  deriving DecidableEq, Repr

/-- The `Raw` value tree from `xmp.go`: `Text`, `URL`, `RawStruct`,
`RawArray`.  A Go `*url.URL` is modelled by its `String()` rendering;
`RawStruct.Value` (a Go map) and every qualifier list `Q` are modelled
as association lists in first-insertion order. -/
inductive Raw where
  | text (v : String) (q : List (XName × Raw))
  | uri (v : String) (q : List (XName × Raw))
  | struct (fields : List (XName × Raw)) (q : List (XName × Raw))
  | arr (items : List Raw) (kind : ArrKind) (q : List (XName × Raw))

/-- A qualifier, mirroring `Qualifier{Name, Value}`. -/
abbrev Qual := XName × Raw

def xmlNamespace : String := "http://www.w3.org/XML/1998/namespace"

def rdfNamespace : String := "http://www.w3.org/1999/02/22-rdf-syntax-ns#"

def nameRDFAbout : XName := ⟨rdfNamespace, "about"⟩

def nameRDFAlt : XName := ⟨rdfNamespace, "Alt"⟩

def nameRDFBag : XName := ⟨rdfNamespace, "Bag"⟩

def nameRDFDataType : XName := ⟨rdfNamespace, "datatype"⟩

def nameRDFDescription : XName := ⟨rdfNamespace, "Description"⟩

def nameRDFID : XName := ⟨rdfNamespace, "ID"⟩

def nameRDFLi : XName := ⟨rdfNamespace, "li"⟩

def nameRDFNodeID : XName := ⟨rdfNamespace, "nodeID"⟩

def nameRDFParseType : XName := ⟨rdfNamespace, "parseType"⟩

def nameRDFResource : XName := ⟨rdfNamespace, "resource"⟩

def nameRDFRoot : XName := ⟨rdfNamespace, "RDF"⟩

def nameRDFSeq : XName := ⟨rdfNamespace, "Seq"⟩

def nameRDFType : XName := ⟨rdfNamespace, "type"⟩

def nameRDFValue : XName := ⟨rdfNamespace, "value"⟩

def nameXMLLang : XName := ⟨xmlNamespace, "lang"⟩

/-- `attrParseTypeResource` from `decode.go`. -/
def attrParseTypeResource : Attr := (nameRDFParseType, "Resource")

/-- Modelled from the spec: `jvxml.IsName` (the `jvxml` tokenizer fork is
an external collaborator whose name-character tables are not under
`src/`).  Faithful on ASCII: an XML name is nonempty, starts with a
letter, `_` or `:`, and continues with letters, digits, `_`, `:`, `.`
or `-`. -/
def IsNameStr (s : String) : Bool :=
  match s.toList with
  | [] => false
  | c :: rest =>
      (c.isAlpha || c = '_' || c = ':') &&
        rest.all (fun d => d.isAlphanum || d = '_' || d = ':' || d = '.' || d = '-')

/-- Modelled from the spec: Go's `net/url.Parse`, an external leaf
parser ("pluggable string-to-scalar converter").  The result is the
`String()` rendering of the parsed URL, modelled as the input itself;
parsing fails exactly on the error conditions of `net/url` that matter
here: a control character anywhere in the string, or a leading `:`
("missing protocol scheme"). -/
def urlParse (s : String) : Option String :=
  if s.toList.any (fun c => c.toNat < 32 || c.toNat = 127) then none
  else if s.toList.headD ' ' = ':' then none
  else some s

/-- `isValidPropertyName` from `decode.go`. -/
def isValidPropertyName (n : XName) : Bool :=
  if n.space = "" || n.space = xmlNamespace || n.space = "xmlns" then false
  else if !IsNameStr n.loc || n.loc.toList.contains ':' then false
  else if n.space = rdfNamespace && n ≠ nameRDFType then false
  else (urlParse n.space).isSome

/-- `isValidQualifierName` from `decode.go`. -/
def isValidQualifierName (n : XName) : Bool :=
  if n.space = "" || n.loc = "" then false
  else if n.space = rdfNamespace && n ≠ nameRDFType then false
  else if n.space = xmlNamespace && n ≠ nameXMLLang then false
  else (urlParse n.space).isSome

/-- `propertyElementType` from `decode.go`. -/
inductive PropEltType where
  | resourcePropertyElt
  | literalPropertyElt
  | parseTypeLiteralPropertyElt
  | parseTypeResourcePropertyElt
  | parseTypeCollectionPropertyElt
  | parseTypeOtherPropertyElt
  | emptyPropertyElt
  deriving DecidableEq, Repr

/-- The attribute scan of `getProperyElementType`: the first attribute
that is not `xml:lang` or `rdf:ID` decides; `none` means the scan fell
through to the content inspection. -/
def classifyScan : List Attr → Option PropEltType
  | [] => none
  | a :: rest =>
      if a.1 = nameXMLLang then classifyScan rest
      else if a.1 = nameRDFID then classifyScan rest
      else if a.1 = nameRDFDataType then some .literalPropertyElt
      else if a.1 = nameRDFParseType then
        if a.2 = "Literal" then some .parseTypeLiteralPropertyElt
        else if a.2 = "Resource" then some .parseTypeResourcePropertyElt
        else if a.2 = "Collection" then some .parseTypeCollectionPropertyElt
        else some .parseTypeOtherPropertyElt
      else some .emptyPropertyElt

/-- The content inspection of `getProperyElementType`: a nested start
element forces `resourcePropertyElt`, otherwise character data forces
`literalPropertyElt`, otherwise `emptyPropertyElt`. -/
def classifyContent : List Token → Bool → PropEltType
  | [], hasCharData => if hasCharData then .literalPropertyElt else .emptyPropertyElt
  | .start _ _ :: _, _ => .resourcePropertyElt
  | .charData _ :: rest, _ => classifyContent rest true
  | _ :: rest, hasCharData => classifyContent rest hasCharData

/-- `getProperyElementType` from `decode.go`. -/
def getProperyElementType (attrs : List Attr) (tokens : List Token) : PropEltType :=
  if attrs.length > 3 then .emptyPropertyElt
  else
    match classifyScan attrs with
    | some tp => tp
    | none => classifyContent tokens false

/-- Association-list update with Go-map semantics: replace the value of
an existing key in place, otherwise append the new binding. -/
def putA (m : List (XName × Raw)) (k : XName) (v : Raw) : List (XName × Raw) :=
  match m with
  | [] => [(k, v)]
  | (k', v') :: rest => if k' = k then (k, v) :: rest else (k', v') :: putA rest k v

/-- Association-list lookup. -/
def getA (m : List (XName × Raw)) (k : XName) : Option Raw :=
  match m with
  | [] => none
  | (k', v') :: rest => if k' = k then some v' else getA rest k

/-- `childElement` from `decode.go`: name of a depth-0 child element of
a token slice, with the indices of its start and end tokens. -/
structure Child where
  name : XName
  first : Nat
  last : Nat
  deriving DecidableEq, Repr

/-- Set the `last` index of the final recorded child
(`children[len(children)-1].end = i` in `getChildren`). -/
def setLastEnd : List Child → Nat → List Child
  | [], _ => []
  | [c], i => [{ c with last := i }]
  | c :: rest, i => c :: setLastEnd rest i

/-- The loop of `getChildren`, carrying the token index and nesting level. -/
def getChildrenAux : List Token → Nat → Int → List Child → List Child
  | [], _, _, acc => acc
  | t :: rest, i, level, acc =>
      match t with
      | .start n _ =>
          getChildrenAux rest (i + 1) (level + 1)
            (if level = 0 then acc ++ [⟨n, i, 0⟩] else acc)
      | .stop _ =>
          getChildrenAux rest (i + 1) (level - 1)
            (if level - 1 = 0 then setLastEnd acc i else acc)
      | _ => getChildrenAux rest (i + 1) level acc

/-- `getChildren` from `decode.go`. -/
def getChildren (tokens : List Token) : List Child :=
  getChildrenAux tokens 0 0 []

/-- The Go slice `tokens[a:b]`. -/
def slice (tokens : List Token) (a b : Nat) : List Token :=
  (tokens.drop a).take (b - a)

/-- The attribute list of the start token at index `i`
(`tokens[i].(xml.StartElement)` in the source). -/
def attrsAt (tokens : List Token) (i : Nat) : List Attr :=
  match tokens.get? i with
  | some (.start _ a) => a
  | _ => []

/-- Value of the first attribute with the given name
(`Attr[attrIdx].Value` for the first matching index). -/
def firstAttr (attrs : List Attr) (n : XName) : String :=
  (((attrs.find? (fun a => a.1 = n)).map (fun a => a.2))).getD ""

/-- Value of the last attribute with the given name (a Go loop of the
form `if a.Name == n { v = a.Value }`). -/
def lastAttr (attrs : List Attr) (n : XName) : String :=
  attrs.foldl (fun acc a => if a.1 = n then a.2 else acc) ""

/-- The `emptyPropertyElt` case of `parsePropertyElement` from
`decode.go` (appendix C.2.12 of ISO 16684-1:2011). -/
def parseEmptyProperty (attrs : List Attr) (qq : List Qual) : Option Raw :=
  let isSimpleProperty := attrs.any (fun a => a.1 = nameRDFValue)
  let isURIProperty := attrs.any (fun a => a.1 = nameRDFResource)
  let isEmptyValue :=
    attrs.all (fun a => a.1 = nameXMLLang || a.1 = nameRDFID || a.1 = nameRDFNodeID)
  if isSimpleProperty then
    let qq2 := attrs.filterMap (fun a =>
      if a.1 = nameRDFValue then none
      else if isValidQualifierName a.1 then some ((a.1, Raw.text a.2 []) : Qual)
      else none)
    some (.text (lastAttr attrs nameRDFValue) qq2)
  else if isURIProperty then
    let qq2 := qq ++ attrs.filterMap (fun a =>
      if a.1 = nameRDFResource then none
      else if isValidQualifierName a.1 then some ((a.1, Raw.text a.2 []) : Qual)
      else none)
    match urlParse (lastAttr attrs nameRDFResource) with
    | none => none
    | some u => some (.uri u qq2)
  else if isEmptyValue then
    match attrs.find? (fun a => a.1 = nameXMLLang) with
    | some a => some (.text "" [(nameXMLLang, .text a.2 [])])
    | none => some (.text "" [])
  else
    let q2 := qq ++ (attrs.filter (fun a => a.1 = nameXMLLang)).map
      (fun a => ((a.1, Raw.text a.2 []) : Qual))
    let fields := attrs.foldl (fun fs a =>
      if a.1 = nameXMLLang then fs
      else if isValidPropertyName a.1 then putA fs a.1 (.text a.2 []) else fs) []
    some (.struct fields q2)

/-- `parsePropertyElement` from `decode.go`, with the start element
split into its name and attributes and an explicit fuel argument (each
recursive call operates on a strictly shorter token slice, so any fuel
exceeding the nesting depth yields the source behaviour; fuel 0 returns
`none` and is never reached in the theorems below). -/
def parseProp : Nat → XName → List Attr → List Token → List Qual → Option Raw
  | 0, _, _, _, _ => none
  | fuel + 1, _, attrs, tokens, qq =>
    match getProperyElementType attrs tokens with
    | .literalPropertyElt =>
        let qq2 := qq ++ attrs.filterMap (fun a =>
          if isValidQualifierName a.1 then some ((a.1, Raw.text a.2 []) : Qual) else none)
        let txt := String.join (tokens.filterMap (fun t =>
          match t with
          | .charData s => some s
          | _ => none))
        some (.text txt qq2)
    | .resourcePropertyElt =>
        let qq2 := qq ++ attrs.filterMap (fun a =>
          if a.1 = nameXMLLang then some ((a.1, Raw.text a.2 []) : Qual) else none)
        match getChildren tokens with
        | [] => none
        | child :: _ =>
          if child.name = nameRDFDescription then
            let descAttrs := attrsAt tokens child.first
            let inner := slice tokens (child.first + 1) child.last
            let fields := getChildren inner
            let hasValueAttr := descAttrs.any (fun a => a.1 = nameRDFValue)
            let valueField := fields.find? (fun f => f.name = nameRDFValue)
            if hasValueAttr || valueField.isSome then
              let qq3 := qq2 ++ descAttrs.filterMap (fun a =>
                if isValidQualifierName a.1 then some ((a.1, Raw.text a.2 []) : Qual)
                else none)
              let qq4 := qq3 ++ fields.filterMap (fun f =>
                if isValidQualifierName f.name then
                  match inner.get? f.first with
                  | some (.start n2 a2) =>
                      (parseProp fuel n2 a2 (slice inner (f.first + 1) f.last) []).map
                        (fun v => ((f.name, v) : Qual))
                  | _ => none
                else none)
              if hasValueAttr then
                some (.text (firstAttr descAttrs nameRDFValue) qq4)
              else
                match valueField with
                | some f =>
                    match inner.get? f.first with
                    | some (.start n2 a2) =>
                        parseProp fuel n2 a2 (slice inner (f.first + 1) f.last) qq4
                    | _ => none
                | none => none
            else
              let fields0 := descAttrs.foldl (fun m a =>
                if isValidPropertyName a.1 then putA m a.1 (.text a.2 []) else m) []
              let fieldsM := fields.foldl (fun m f =>
                if isValidPropertyName f.name then
                  match inner.get? f.first with
                  | some (.start n2 a2) =>
                      match parseProp fuel n2 a2 (slice inner (f.first + 1) f.last) [] with
                      | some v => putA m f.name v
                      | none => m
                  | _ => m
                else m) fields0
              some (.struct fieldsM qq2)
          else if child.name = nameRDFBag || child.name = nameRDFSeq
              || child.name = nameRDFAlt then
            let kind : ArrKind :=
              if child.name = nameRDFBag then .unordered
              else if child.name = nameRDFSeq then .ordered
              else .alternative
            let inner := slice tokens (child.first + 1) child.last
            let items := getChildren inner
            let vals := items.filterMap (fun f =>
              match inner.get? f.first with
              | some (.start n2 a2) =>
                  parseProp fuel n2 a2 (slice inner (f.first + 1) f.last) []
              | _ => none)
            some (.arr vals kind qq2)
          else
            let inner := slice tokens (child.first + 1) child.last
            let qq3 :=
              match urlParse (child.name.space ++ child.name.loc) with
              | some u => qq2 ++ [((nameRDFType, Raw.uri u []) : Qual)]
              | none => qq2
            let fields := getChildren inner
            let valueField := fields.find? (fun f => f.name = nameRDFValue)
            match valueField with
            | some f =>
                let qq4 := qq3 ++ fields.filterMap (fun g =>
                  if isValidQualifierName g.name then
                    match inner.get? g.first with
                    | some (.start n2 a2) =>
                        (parseProp fuel n2 a2 (slice inner (g.first + 1) g.last) []).map
                          (fun v => ((g.name, v) : Qual))
                    | _ => none
                  else none)
                match inner.get? f.first with
                | some (.start n2 a2) =>
                    parseProp fuel n2 a2 (slice inner (f.first + 1) f.last) qq4
                | _ => none
            | none =>
                let fieldsM := fields.foldl (fun m f =>
                  if isValidPropertyName f.name then
                    match inner.get? f.first with
                    | some (.start n2 a2) =>
                        match parseProp fuel n2 a2 (slice inner (f.first + 1) f.last) [] with
                        | some v => putA m f.name v
                        | none => m
                    | _ => m
                  else m) []
                some (.struct fieldsM qq3)
    | .parseTypeResourcePropertyElt =>
        let qq2 := qq ++ attrs.filterMap (fun a =>
          if a.1 = nameXMLLang then some ((a.1, Raw.text a.2 []) : Qual) else none)
        let fields := getChildren tokens
        let valueField := fields.find? (fun f => f.name = nameRDFValue)
        match valueField with
        | some f =>
            let qq3 := qq2 ++ fields.filterMap (fun g =>
              if isValidQualifierName g.name then
                match tokens.get? g.first with
                | some (.start n2 a2) =>
                    (parseProp fuel n2 a2 (slice tokens (g.first + 1) g.last) []).map
                      (fun v => ((g.name, v) : Qual))
                | _ => none
              else none)
            match tokens.get? f.first with
            | some (.start n2 a2) =>
                parseProp fuel n2 a2 (slice tokens (f.first + 1) f.last) qq3
            | _ => none
        | none =>
            let fieldsM := fields.foldl (fun m f =>
              if isValidPropertyName f.name then
                match tokens.get? f.first with
                | some (.start n2 a2) =>
                    match parseProp fuel n2 a2 (slice tokens (f.first + 1) f.last) [] with
                    | some v => putA m f.name v
                    | none => m
                | _ => m
              else m) []
            some (.struct fieldsM qq2)
    | .emptyPropertyElt => parseEmptyProperty attrs qq
    | _ => none

/-- `Q.hasQualifiers` from `xmp.go`: any qualifier other than `xml:lang`. -/
def hasQualifiers (q : List Qual) : Bool :=
  q.any (fun x => x.1 ≠ nameXMLLang)

/-- `Q.allSimple` from `xmp.go`: every qualifier value is a `Text` with
no qualifiers of its own. -/
def allSimpleQ (q : List Qual) : Bool :=
  q.all (fun x =>
    match x.2 with
    | .text _ [] => true
    | _ => false)

/-- `Q.getLangAttr` from `xmp.go`: append an `xml:lang` attribute for
each `xml:lang` qualifier whose value is a `Text`. -/
def getLangAttr (q : List Qual) (attr : List Attr) : List Attr :=
  attr ++ q.filterMap (fun x =>
    if x.1 = nameXMLLang then
      match x.2 with
      | .text v _ => some ((nameXMLLang, v) : Attr)
      | _ => none
    else none)

/-- The Go type assertion `.(Text).V` (callers guard with `allSimple`). -/
def textV : Raw → String
  | .text v _ => v
  | _ => ""

/-- Insertion step for sorting names by (namespace, local), the order
used by `RawStruct.fieldNames` and `Packet.Encode`. -/
def insName (n : XName) : List XName → List XName
  | [] => [n]
  | m :: rest =>
      if n.space < m.space || (n.space = m.space && n.loc < m.loc) then n :: m :: rest
      else m :: insName n rest

/-- Sort names by (namespace, local). -/
def sortNames (l : List XName) : List XName :=
  l.foldr insName []

/-- `RawStruct.allSimple` from `xmp.go`: every field value is a `Text`
with no qualifiers. -/
def allSimpleF (fields : List (XName × Raw)) : Bool :=
  fields.all (fun x =>
    match x.2 with
    | .text _ [] => true
    | _ => false)

/-- The `appendXML` methods of `Text`, `URL`, `RawStruct` and `RawArray`
from `xmp.go`, merged over the `Raw` union, with fuel for the recursion
into qualifier values, struct fields and array items. -/
def appendXML : Nat → Raw → XName → List Token
  | 0, _, _ => []
  | fuel + 1, v, name =>
    match v with
    | .text t q =>
        if !hasQualifiers q then
          [.start name (getLangAttr q []), .charData t, .stop name]
        else if allSimpleQ q then
          let attrs := q.map (fun x => ((x.1, textV x.2) : Attr)) ++ [(nameRDFValue, t)]
          [.emptyElt name attrs]
        else
          let attrs := getLangAttr q [] ++ [attrParseTypeResource]
          [.start name attrs, .start nameRDFValue [], .charData t, .stop nameRDFValue]
            ++ (q.filter (fun x => x.1 ≠ nameXMLLang)).flatMap
                (fun x => appendXML fuel x.2 x.1)
            ++ [.stop name]
    | .uri u q =>
        if hasQualifiers q then
          let attrs := getLangAttr q [] ++ [attrParseTypeResource]
          [.start name attrs, .emptyElt nameRDFValue [(nameRDFResource, u)]]
            ++ (q.filter (fun x => x.1 ≠ nameXMLLang)).flatMap
                (fun x => appendXML fuel x.2 x.1)
            ++ [.stop name]
        else
          [.emptyElt name (getLangAttr q [] ++ [(nameRDFResource, u)])]
    | .struct fields q =>
        let attr0 := getLangAttr q []
        let names := sortNames (fields.map (fun x => x.1))
        if hasQualifiers q then
          [.start name (attr0 ++ [attrParseTypeResource]),
           .start nameRDFValue [attrParseTypeResource]]
            ++ names.flatMap (fun fn =>
                match getA fields fn with
                | some fv => appendXML fuel fv fn
                | none => [])
            ++ [.stop nameRDFValue]
            ++ (q.filter (fun x => x.1 ≠ nameXMLLang)).flatMap
                (fun x => appendXML fuel x.2 x.1)
            ++ [.stop name]
        else if allSimpleF fields && fields.length > 0 then
          [.emptyElt name (attr0 ++ names.map (fun fn =>
            ((fn, textV ((getA fields fn).getD (.text "" []))) : Attr)))]
        else
          [.start name (attr0 ++ [attrParseTypeResource])]
            ++ names.flatMap (fun fn =>
                match getA fields fn with
                | some fv => appendXML fuel fv fn
                | none => [])
            ++ [.stop name]
    | .arr items kind q =>
        let attr0 := getLangAttr q []
        let envName :=
          match kind with
          | .unordered => nameRDFBag
          | .ordered => nameRDFSeq
          | .alternative => nameRDFAlt
        if hasQualifiers q then
          [.start name (attr0 ++ [attrParseTypeResource]),
           .start nameRDFValue [], .start envName []]
            ++ items.flatMap (fun it => appendXML fuel it nameRDFLi)
            ++ [.stop envName, .stop nameRDFValue]
            ++ (q.filter (fun x => x.1 ≠ nameXMLLang)).flatMap
                (fun x => appendXML fuel x.2 x.1)
            ++ [.stop name]
        else
          [.start name attr0, .start envName []]
            ++ items.flatMap (fun it => appendXML fuel it nameRDFLi)
            ++ [.stop envName, .stop name]

/-- Serialize-then-reparse at the token level: the `jvxml` writer prints
`EmptyElement` as a self-closing tag, which the XML reader reports as a
start token followed by an end token; all other tokens survive
unchanged. -/
def expandEmpty (ts : List Token) : List Token :=
  ts.flatMap (fun t =>
    match t with
    | .emptyElt n a => [Token.start n a, Token.stop n]
    | t => [t])

/-- Re-decode one encoded property element: split off the outer start
and end tokens and hand the body to `parsePropertyElement`, as the
`Read` loop does for a recorded property element. -/
def decodeProp (fuel : Nat) (ts : List Token) : Option Raw :=
  match expandEmpty ts with
  | .start n attrs :: rest => parseProp fuel n attrs rest.dropLast []
  | _ => none

/-- The decoded packet: optional `rdf:about` URL and the property map
(`Packet` from `xmp.go`, restricted to the fields `Read` builds). -/
structure PacketM where
  about : Option String
  props : List (XName × Raw)

/-- The state of the `Read` token loop from `decode.go`. -/
structure RState where
  level : Int
  descLevel : Int
  propLevel : Int
  propElt : List Token
  about : Option String
  props : List (XName × Raw)

/-- The `rdf:about` computation of `Read`: an empty attribute value is
not parsed, a parse failure yields `nil`, and a parsed URL whose
rendering is empty (the `"//#"` case noted in the source) is also
dropped to `nil`. -/
def aboutOf (v : String) : Option String :=
  if v ≠ "" then
    match urlParse v with
    | some u => if u = "" then none else some u
    | none => none
  else none

/-- The attribute loop `Read` runs on an `rdf:Description` start tag:
`rdf:about` is parsed and checked for consistency, any other
valid-property-named attribute becomes a simple text property. -/
def processDescAttrs :
    List Attr → Option String → List (XName × Raw) →
      Except String (Option String × List (XName × Raw))
  | [], ab, pr => .ok (ab, pr)
  | a :: rest, ab, pr =>
      if a.1 = nameRDFAbout then
        let aboutURL : Option String := aboutOf a.2
        match ab with
        | none => processDescAttrs rest aboutURL pr
        | some v =>
            match aboutURL with
            | some u =>
                if u ≠ v then
                  .error ("inconsistent `about` attributes: " ++ v ++ " != " ++ u)
                else processDescAttrs rest ab pr
            | none => processDescAttrs rest ab pr
      else
        if isValidPropertyName a.1 then
          processDescAttrs rest ab (putA pr a.1 (.text a.2 []))
        else processDescAttrs rest ab pr

/-- Record the current token into the property element being collected,
when one is being collected (the trailing append of the `Read` loop). -/
def recordTok (st : RState) (t : Token) : RState :=
  if st.propLevel ≥ 0 then { st with propElt := st.propElt ++ [t] } else st

/-- The token loop of `Read` from `decode.go`. -/
def readLoop : List Token → RState → Except String PacketM
  | [], st => .ok ⟨st.about, st.props⟩
  | t :: rest, st =>
      match t with
      | .start n attrs =>
          if st.level > 0 || n = nameRDFRoot then
            let level := st.level + 1
            if st.descLevel < 0 && n = nameRDFDescription then
              match processDescAttrs attrs st.about st.props with
              | .error e => .error e
              | .ok (ab, pr) =>
                  readLoop rest (recordTok
                    { st with level := level, descLevel := level,
                              about := ab, props := pr } t)
            else if st.descLevel ≥ 0 && st.propLevel < 0 then
              readLoop rest (recordTok
                { st with level := level, propLevel := level, propElt := [] } t)
            else
              readLoop rest (recordTok { st with level := level } t)
          else
            readLoop rest st
      | .stop _ =>
          let st1 :=
            if st.level = st.propLevel then
              let st2 :=
                match st.propElt with
                | .start nm at2 :: body =>
                    if isValidPropertyName nm then
                      match parseProp (body.length + 1) nm at2 body [] with
                      | some v => { st with props := putA st.props nm v }
                      | none => st
                    else st
                | _ => st
              { st2 with propLevel := -1 }
            else st
          let st1 := if st1.level = st1.descLevel then { st1 with descLevel := -1 } else st1
          let st1 := if st1.level > 0 then { st1 with level := st1.level - 1 } else st1
          readLoop rest (recordTok st1 t)
      | _ => readLoop rest (recordTok st t)

/-- `Read` from `decode.go`, over the token stream the XML tokenizer
delivers for one input. -/
def read (tokens : List Token) : Except String PacketM :=
  readLoop tokens ⟨0, -1, -1, [], none, []⟩

/-- The `defaultPrefix` table from `ns.go`. -/
def defaultPfx (ns : String) : Option String :=
  if ns = xmlNamespace then some "xml"
  else if ns = rdfNamespace then some "rdf"
  else if ns = "http://ns.adobe.com/xap/1.0/" then some "xmp"
  else if ns = "http://ns.adobe.com/xap/1.0/mm/" then some "xmpMM"
  else if ns = "http://ns.adobe.com/xap/1.0/rights/" then some "xmpRights"
  else if ns = "http://ns.adobe.com/xap/1.0/sType/ResourceRef#" then some "stRef"
  else if ns = "http://ns.adobe.com/xmp/Identifier/qual/1.0/" then some "xmpidq"
  else if ns = "http://purl.org/dc/elements/1.1/" then some "dc"
  else none

/-- Go map read `m[k]`, which yields `""` for a missing key. -/
def mapGetS (m : List (String × String)) (k : String) : String :=
  match m with
  | [] => ""
  | (k', v) :: rest => if k' = k then v else mapGetS rest k

/-- Go form `_, ok := m[k]`. -/
def hasKeyS (m : List (String × String)) (k : String) : Bool :=
  match m with
  | [] => false
  | (k', _) :: rest => k' = k || hasKeyS rest k

/-- `strings.TrimRight(ns, "/#")`. -/
def trimRightSH (s : String) : String :=
  String.mk ((s.toList.reverse.dropWhile (fun c => c = '/' || c = '#')).reverse)

/-- Accumulate the characters after the most recent `/`. -/
def lastSegL : List Char → List Char → List Char
  | [], acc => acc
  | c :: rest, acc => if c = '/' then lastSegL rest [] else lastSegL rest (acc ++ [c])

/-- The substring after the last `/`, or the whole string when there is
no `/` (`strings.LastIndex` + reslice in `getPrefix`). -/
def lastSeg (s : String) : String :=
  String.mk (lastSegL s.toList [])

/-- The candidate-prefix derivation of `getPrefix` from `ns.go`: last
path segment with trailing `/`/`#` stripped, `_` fallback for empty or
non-name candidates, and a `_` guard for case-insensitive `xml...`. -/
def candPfx (ns : String) : String :=
  let p := lastSeg (trimRightSH ns)
  let p := if p = "" || !IsNameStr p || p.toList.contains ':' then "_" else p
  if p.toList.length ≥ 3 && (p.toList.take 3).map Char.toLower = ['x', 'm', 'l'] then
    "_" ++ p
  else p

/-- The collision loop of `getPrefix`: starting at `len(m)+1`, decrement
the numeric suffix until `prefix + "_" + itoa(idx)` is free.  The fuel
bounds the finitely many occupied candidates; it is never exhausted for
the inputs considered. -/
def findFreePfx : Nat → List (String × String) → String → Int → String
  | 0, _, p, _ => p
  | fuel + 1, m, p, idx =>
      let id := p ++ "_" ++ toString idx
      if mapGetS m id = "" then id else findFreePfx fuel m p (idx - 1)

/-- `getPrefix` from `ns.go` (the revision whose collision check reads
the map it is given at the key `prefix`).  `newEncoder` passes its
namespace-to-prefix map here. -/
def getPfx (m : List (String × String)) (ns : String) : String :=
  let p := candPfx ns
  if mapGetS m p ≠ "" then findFreePfx (m.length + 2) m p (Int.ofNat m.length + 1)
  else p

/-- The prefix-assignment phase of `newEncoder` from `encode.go`:
default prefixes first, then `getPrefix` for the remaining namespaces,
both loops following the given iteration order of the `nsUsed` map (Go
map iteration order is arbitrary). -/
def assignPfxs (order : List String) : List (String × String) :=
  let m1 := order.foldl (fun m ns =>
    match defaultPfx ns with
    | some p => m ++ [(ns, p)]
    | none => m) []
  order.foldl (fun m ns =>
    if hasKeyS m ns then m else m ++ [(ns, getPfx m ns)]) m1

/-- The `Value` implementations `Text` and `URL` from `xmp.go`, whose
`GetXMP` methods return the value itself as a `Raw`. -/
inductive ValueV where
  | vText (v : String) (q : List Qual)
  | vURL (u : String) (q : List Qual)

/-- `GetXMP` from `xmp.go` (`Text.GetXMP` and `URL.GetXMP` both return
the receiver). -/
def getXMP : ValueV → Raw
  | .vText v q => .text v q
  | .vURL u q => .uri u q

/-- `Packet.SetValue` from `xmp.go`.  A Go `panic` is modelled as
`none`; a normal return stores the value and yields the new packet. -/
def setValue (p : PacketM) (namespace_ propertyName : String) (value : ValueV) :
    Option PacketM :=
  if !isValidPropertyName ⟨namespace_, propertyName⟩ then none
  else
    let name : XName := ⟨namespace_, propertyName⟩
    if !isValidPropertyName name then none
    else some { p with props := putA p.props name (getXMP value) }

/-! Concrete inputs.  The `test:` namespace is the one the repository's
own test suite uses. -/

def testNS : String := "http://ns.seehuhn.de/test/#"

def nTestProp : XName := ⟨testNS, "prop"⟩

def nTestQ : XName := ⟨testNS, "q"⟩

/-- The qualifier names of a value, in order (a projection used to
separate unequal values). -/
def topQualNames : Raw → List XName
  | .text _ q => q.map (fun x => x.1)
  | .uri _ q => q.map (fun x => x.1)
  | .struct _ q => q.map (fun x => x.1)
  | .arr _ _ q => q.map (fun x => x.1)

/-- A decoder-reachable input: the element
`<test:prop test:q="a" xml:lang="de" rdf:resource="http://x"/>`. -/
def c1Input : List Token :=
  [.emptyElt nTestProp [(nTestQ, "a"), (nameXMLLang, "de"), (nameRDFResource, "http://x")]]

/-- The value the decoder produces for `c1Input`: a URI with the
qualifiers `test:q` and `xml:lang`, in attribute order. -/
def c1Val : Raw :=
  .uri "http://x" [(nTestQ, .text "a" []), (nameXMLLang, .text "de" [])]

/-- What re-decoding the encoding of `c1Val` yields: the same URI, but
with `xml:lang` moved in front of `test:q`. -/
def c1Val2 : Raw :=
  .uri "http://x" [(nameXMLLang, .text "de" []), (nTestQ, .text "a" [])]

/-- C1.  The round-trip property fails on the code: `c1Val` is produced
by the decoder itself (first conjunct), yet decoding the encoder's
output for it yields `c1Val2`, whose qualifier list has `xml:lang`
moved to the front, so `Decode(Encode(v)) ≠ v` for this
decoder-reachable `v`. -/
theorem claimC1_roundTrip_fails :
    decodeProp 20 c1Input = some c1Val ∧
    decodeProp 20 (appendXML 10 c1Val nTestProp) = some c1Val2 ∧
    c1Val2 ≠ c1Val :=
  ⟨rfl, rfl, fun h => absurd (congrArg topQualNames h) (by decide)⟩

/-- An iteration order of the namespace set
`{xml, rdf, "foo", "http://x/foo/"}` in which the bare namespace
`"foo"` is assigned a prefix first. -/
def c2Order1 : List String := [xmlNamespace, rdfNamespace, "foo", "http://x/foo/"]

/-- The same namespace set enumerated with `"http://x/foo/"` first. -/
def c2Order2 : List String := [xmlNamespace, rdfNamespace, "http://x/foo/", "foo"]

/-- C2.  Encoding is not deterministic: the two orders enumerate the
same namespace set (first conjunct), yet the prefix `newEncoder`
assigns to `"http://x/foo/"` differs between them (`"foo_4"` vs
`"foo"`), so the emitted `xmlns:` attributes and property tags — hence
the output bytes — depend on Go's arbitrary map iteration order. -/
theorem claimC2_prefixAssignment_orderDependent :
    c2Order1.Perm c2Order2 ∧
    mapGetS (assignPfxs c2Order1) "http://x/foo/" = "foo_4" ∧
    mapGetS (assignPfxs c2Order2) "http://x/foo/" = "foo" :=
  ⟨by decide, rfl, rfl⟩

/-- A namespace set containing two distinct namespaces whose URIs share
the final path segment `foo`. -/
def c3Order : List String := [xmlNamespace, rdfNamespace, "http://a/foo/", "http://b/foo/"]

/-- C3.  The encoder's prefix assignment is not injective: the default
bindings `xml` and `rdf` are made (first two conjuncts), but the two
distinct namespaces `http://a/foo/` and `http://b/foo/` both receive
the prefix `"foo"`, because `getPrefix` checks its collision candidate
against the keys of the namespace-to-prefix map it is handed — which
are namespace URIs, not prefixes. -/
theorem claimC3_prefixes_not_distinct :
    mapGetS (assignPfxs c3Order) xmlNamespace = "xml" ∧
    mapGetS (assignPfxs c3Order) rdfNamespace = "rdf" ∧
    mapGetS (assignPfxs c3Order) "http://a/foo/" = "foo" ∧
    mapGetS (assignPfxs c3Order) "http://b/foo/" = "foo" ∧
    "http://a/foo/" ≠ "http://b/foo/" :=
  ⟨rfl, rfl, rfl, rfl, by decide⟩

/-- The scenario-5 input
`<test:prop><rdf:Description><rdf:value>v</rdf:value><test:q>x</test:q></rdf:Description></test:prop>`. -/
def c7Tokens : List Token :=
  [.start nTestProp [], .start nameRDFDescription [], .start nameRDFValue [],
   .charData "v", .stop nameRDFValue, .start nTestQ [], .charData "x",
   .stop nTestQ, .stop nameRDFDescription, .stop nTestProp]

/-- The expected scenario-5 value. -/
def c7Val : Raw := .text "v" [(nTestQ, .text "x" [])]

/-- Whether a property-element token sequence is the
`rdf:parseType="Resource"` form: its opening tag carries the
`rdf:parseType="Resource"` attribute. -/
def isParseTypeResourceForm (ts : List Token) : Bool :=
  match ts with
  | .start _ a :: _ => a.any (fun x => x = attrParseTypeResource)
  | _ => false

/-- Whether a token sequence contains an `rdf:value` child element. -/
def hasRDFValueChild (ts : List Token) : Bool :=
  ts.any (fun t =>
    match t with
    | .start n _ => n = nameRDFValue
    | .emptyElt n _ => n = nameRDFValue
    | _ => false)

/-- C7.  The decode half of the claim holds (first conjunct), but the
re-encoding half fails: the encoder's output for the decoded value is
not the `rdf:parseType="Resource"` form and contains no `rdf:value`
child element at all. -/
theorem claimC7_encodeForm_counterexample :
    decodeProp 20 c7Tokens = some c7Val ∧
    isParseTypeResourceForm (appendXML 10 c7Val nTestProp) = false ∧
    hasRDFValueChild (appendXML 10 c7Val nTestProp) = false :=
  ⟨rfl, rfl, rfl⟩

/-- C7 amended.  Decoding yields `Text{"v", [{test:q, Text{"x"}}]}` and
re-encoding chooses the most compact legal form — a single self-closing
element carrying the qualifier and `rdf:value` as attributes — which
still round-trips to the same value. -/
theorem claimC7_decode_and_compact_encode :
    decodeProp 20 c7Tokens = some c7Val ∧
    appendXML 10 c7Val nTestProp =
      [.emptyElt nTestProp [(nTestQ, "x"), (nameRDFValue, "v")]] ∧
    decodeProp 20 (appendXML 10 c7Val nTestProp) = some c7Val :=
  ⟨rfl, rfl, rfl⟩

/-- A packet whose property element contains character data (`"stray"`)
in a place where the grammar allows only element children (directly
inside `rdf:Bag`). -/
def c8Stream : List Token :=
  [.start nameRDFRoot [], .start nameRDFDescription [(nameRDFAbout, "")],
   .start nTestProp [], .start nameRDFBag [], .charData "stray",
   .start nameRDFLi [], .charData "1", .stop nameRDFLi, .stop nameRDFBag,
   .stop nTestProp, .stop nameRDFDescription, .stop nameRDFRoot]

/-- The same packet without the stray character data. -/
def c8StreamClean : List Token :=
  [.start nameRDFRoot [], .start nameRDFDescription [(nameRDFAbout, "")],
   .start nTestProp [], .start nameRDFBag [],
   .start nameRDFLi [], .charData "1", .stop nameRDFLi, .stop nameRDFBag,
   .stop nTestProp, .stop nameRDFDescription, .stop nameRDFRoot]

/-- C8.  Structural malformation does not abort decoding: the packet
with stray character data decodes without error, to a packet that still
contains the array property. -/
theorem claimC8_no_hard_error :
    read c8Stream =
      .ok ⟨none, [(nTestProp, .arr [.text "1" []] .unordered [])]⟩ :=
  rfl

def nTestA : XName := ⟨testNS, "a"⟩

def nTestR : XName := ⟨testNS, "r"⟩

/-- A resource-property body (an `rdf:Bag` with one item) with stray
character data at each position where the grammar allows only element
children: before the `rdf:Bag`, before and after the `rdf:li`, and
after the `rdf:Bag`. -/
def bagBody (s1 s2 s3 s4 : String) : List Token :=
  [.charData s1, .start nameRDFBag [], .charData s2,
   .start nameRDFLi [], .charData "1", .stop nameRDFLi,
   .charData s3, .stop nameRDFBag, .charData s4]

/-- The same body without the stray character data. -/
def bagBody0 : List Token :=
  [.start nameRDFBag [], .start nameRDFLi [], .charData "1", .stop nameRDFLi,
   .stop nameRDFBag]

/-- An `rdf:parseType="Resource"` body (one struct field) with stray
character data before the field element. -/
def ptBody (s5 : String) : List Token :=
  [.charData s5, .start nTestA [], .charData "1", .stop nTestA]

/-- The same body without the stray character data. -/
def ptBody0 : List Token :=
  [.start nTestA [], .charData "1", .stop nTestA]

/-- A resource-property body holding an `rdf:Description` struct, with
stray character data inside the `rdf:Description` before the field. -/
def descBody (s6 : String) : List Token :=
  [.start nameRDFDescription [], .charData s6,
   .start nTestA [], .charData "2", .stop nTestA, .stop nameRDFDescription]

/-- The same body without the stray character data. -/
def descBody0 : List Token :=
  [.start nameRDFDescription [],
   .start nTestA [], .charData "2", .stop nTestA, .stop nameRDFDescription]

/-- The packet of `c8StreamClean` with stray character data inside the
`rdf:Description` subject element, before the property element. -/
def c8SubjStream (s0 : String) : List Token :=
  [.start nameRDFRoot [], .start nameRDFDescription [(nameRDFAbout, "")],
   .charData s0,
   .start nTestProp [], .start nameRDFBag [],
   .start nameRDFLi [], .charData "1", .stop nameRDFLi, .stop nameRDFBag,
   .stop nTestProp, .stop nameRDFDescription, .stop nameRDFRoot]

theorem c8ParseBagStrays (s1 s2 s3 s4 : String) :
    parseProp 20 nTestProp [] (bagBody s1 s2 s3 s4) [] =
      some (.arr [.text "1" []] .unordered []) := rfl

theorem c8ParseBag0 :
    parseProp 20 nTestProp [] bagBody0 [] =
      some (.arr [.text "1" []] .unordered []) := rfl

theorem c8ParsePTStray (s5 : String) :
    parseProp 20 nTestQ [attrParseTypeResource] (ptBody s5) [] =
      some (.struct [(nTestA, .text "1" [])] []) := rfl

theorem c8ParsePT0 :
    parseProp 20 nTestQ [attrParseTypeResource] ptBody0 [] =
      some (.struct [(nTestA, .text "1" [])] []) := rfl

theorem c8ParseDescStray (s6 : String) :
    parseProp 20 nTestR [] (descBody s6) [] =
      some (.struct [(nTestA, .text "2" [])] []) := rfl

theorem c8ParseDesc0 :
    parseProp 20 nTestR [] descBody0 [] =
      some (.struct [(nTestA, .text "2" [])] []) := rfl

/-- The tokens of `c8SubjStream` after the subject's stray character
data, which the loop has consumed without recording. -/
def c8SubjTail : List Token :=
  [.start nTestProp [], .start nameRDFBag [],
   .start nameRDFLi [], .charData "1", .stop nameRDFLi, .stop nameRDFBag,
   .stop nTestProp, .stop nameRDFDescription, .stop nameRDFRoot]

theorem c8ReadTail :
    readLoop c8SubjTail ⟨2, 2, -1, [], none, []⟩ =
      .ok ⟨none, [(nTestProp, .arr [.text "1" []] .unordered [])]⟩ := rfl

theorem c8ReadSubjStray (s0 : String) :
    read (c8SubjStream s0) =
      .ok ⟨none, [(nTestProp, .arr [.text "1" []] .unordered [])]⟩ := by
  have hpre : ∀ rest2 : List Token,
      readLoop (Token.start nameRDFRoot [] ::
          Token.start nameRDFDescription [(nameRDFAbout, "")] :: rest2)
        ⟨0, -1, -1, [], none, []⟩ =
      readLoop rest2 ⟨2, 2, -1, [], none, []⟩ :=
    fun _ => rfl
  have hskip : readLoop (Token.charData s0 :: c8SubjTail) ⟨2, 2, -1, [], none, []⟩ =
      readLoop c8SubjTail ⟨2, 2, -1, [], none, []⟩ := by
    rw [readLoop, recordTok, if_neg]
    · decide
    · intro n attrs h
      exact Token.noConfusion h
    · intro nm h
      exact Token.noConfusion h
  calc read (c8SubjStream s0)
      = readLoop (Token.start nameRDFRoot [] ::
          Token.start nameRDFDescription [(nameRDFAbout, "")] ::
          Token.charData s0 :: c8SubjTail) ⟨0, -1, -1, [], none, []⟩ := rfl
    _ = readLoop (Token.charData s0 :: c8SubjTail) ⟨2, 2, -1, [], none, []⟩ :=
        hpre (Token.charData s0 :: c8SubjTail)
    _ = readLoop c8SubjTail ⟨2, 2, -1, [], none, []⟩ := hskip
    _ = .ok ⟨none, [(nTestProp, .arr [.text "1" []] .unordered [])]⟩ := c8ReadTail

theorem c8ReadBagStray :
    read c8Stream =
      .ok ⟨none, [(nTestProp, .arr [.text "1" []] .unordered [])]⟩ := rfl

theorem c8ReadNoStray :
    read c8StreamClean =
      .ok ⟨none, [(nTestProp, .arr [.text "1" []] .unordered [])]⟩ := rfl

/-- C8 amended.  Character data appearing where the grammar requires
only element children does not cause a hard error and is not decoded
into the result: whatever its content, the decoder ignores it,
producing exactly the value it produces for the input without the
stray character data.  Proved, quantified over the stray content, for
an elements-only position of each container form — a resource-property
body around an `rdf:Bag`, the `rdf:Bag` body before and after an
`rdf:li`, an `rdf:parseType="Resource"` body, an `rdf:Description`
struct body, and the `rdf:Description` subject body — and at the
packet level, where `Read` returns the unchanged packet and no
error. -/
theorem claimC8_strayCharData_ignored :
    (∀ s1 s2 s3 s4 : String,
      parseProp 20 nTestProp [] (bagBody s1 s2 s3 s4) [] =
        some (.arr [.text "1" []] .unordered [])) ∧
    parseProp 20 nTestProp [] bagBody0 [] =
      some (.arr [.text "1" []] .unordered []) ∧
    (∀ s5 : String,
      parseProp 20 nTestQ [attrParseTypeResource] (ptBody s5) [] =
        some (.struct [(nTestA, .text "1" [])] [])) ∧
    parseProp 20 nTestQ [attrParseTypeResource] ptBody0 [] =
      some (.struct [(nTestA, .text "1" [])] []) ∧
    (∀ s6 : String,
      parseProp 20 nTestR [] (descBody s6) [] =
        some (.struct [(nTestA, .text "2" [])] [])) ∧
    parseProp 20 nTestR [] descBody0 [] =
      some (.struct [(nTestA, .text "2" [])] []) ∧
    (∀ s0 : String,
      read (c8SubjStream s0) =
        .ok ⟨none, [(nTestProp, .arr [.text "1" []] .unordered [])]⟩) ∧
    read c8Stream =
      .ok ⟨none, [(nTestProp, .arr [.text "1" []] .unordered [])]⟩ ∧
    read c8StreamClean =
      .ok ⟨none, [(nTestProp, .arr [.text "1" []] .unordered [])]⟩ :=
  ⟨c8ParseBagStrays, c8ParseBag0, c8ParsePTStray, c8ParsePT0, c8ParseDescStray,
   c8ParseDesc0, c8ReadSubjStray, c8ReadBagStray, c8ReadNoStray⟩

/-- The decision the classifier takes for the first attribute that is
neither `xml:lang` nor `rdf:ID`. -/
def classifyOne (a : Attr) : PropEltType :=
  if a.1 = nameRDFDataType then .literalPropertyElt
  else if a.1 = nameRDFParseType then
    if a.2 = "Literal" then .parseTypeLiteralPropertyElt
    else if a.2 = "Resource" then .parseTypeResourcePropertyElt
    else if a.2 = "Collection" then .parseTypeCollectionPropertyElt
    else .parseTypeOtherPropertyElt
  else .emptyPropertyElt

theorem classifyScan_eq_of_dropWhile (attrs : List Attr) (a : Attr) (rest : List Attr)
    (h : attrs.dropWhile (fun x => x.1 = nameXMLLang || x.1 = nameRDFID) = a :: rest) :
    classifyScan attrs = some (classifyOne a) := by
  induction attrs with
  | nil => simp [List.dropWhile] at h
  | cons b t ih =>
      rw [List.dropWhile] at h
      by_cases hb : (decide (b.1 = nameXMLLang) || decide (b.1 = nameRDFID)) = true
      · rw [hb] at h
        have hrec := ih h
        rw [classifyScan]
        rcases Bool.or_eq_true_iff.mp hb with h1 | h1
        · rw [if_pos (of_decide_eq_true h1)]
          exact hrec
        · by_cases h2 : b.1 = nameXMLLang
          · rw [if_pos h2]
            exact hrec
          · rw [if_neg h2, if_pos (of_decide_eq_true h1)]
            exact hrec
      · rw [Bool.not_eq_true] at hb
        rw [hb] at h
        have h' : b :: t = a :: rest := h
        injection h' with hba htr
        subst hba
        subst htr
        have h1 : ¬ b.1 = nameXMLLang := by
          intro hx
          simp [hx] at hb
        have h2 : ¬ b.1 = nameRDFID := by
          intro hx
          simp [hx] at hb
        rw [classifyScan, if_neg h1, if_neg h2, classifyOne]
        split_ifs <;> rfl

/-- C4.  The classifier returns `EmptyProperty` for every element with
more than 3 attributes, regardless of attribute names and enclosed
tokens; with at most 3 attributes it scans the attributes in order,
skipping `xml:lang` and `rdf:ID`, and the first remaining attribute
decides: `rdf:datatype` gives LiteralProperty, `rdf:parseType` selects
by value (`"Resource"` the resource shorthand, `"Literal"`,
`"Collection"` and anything else one of the disallowed forms), and any
other attribute gives EmptyProperty. -/
theorem claimC4_classifier (attrs : List Attr) (tokens : List Token) :
    (attrs.length > 3 → getProperyElementType attrs tokens = .emptyPropertyElt) ∧
    (attrs.length ≤ 3 →
      ∀ a rest,
        attrs.dropWhile (fun x => x.1 = nameXMLLang || x.1 = nameRDFID) = a :: rest →
        getProperyElementType attrs tokens = classifyOne a ∧
        (a.1 ≠ nameRDFDataType → a.1 ≠ nameRDFParseType →
          getProperyElementType attrs tokens = .emptyPropertyElt) ∧
        (a.1 = nameRDFDataType →
          getProperyElementType attrs tokens = .literalPropertyElt) ∧
        (a.1 = nameRDFParseType → a.2 = "Resource" →
          getProperyElementType attrs tokens = .parseTypeResourcePropertyElt) ∧
        (a.1 = nameRDFParseType → a.2 ≠ "Resource" →
          getProperyElementType attrs tokens = .parseTypeLiteralPropertyElt ∨
          getProperyElementType attrs tokens = .parseTypeCollectionPropertyElt ∨
          getProperyElementType attrs tokens = .parseTypeOtherPropertyElt)) := by
  constructor
  · intro h
    rw [getProperyElementType, if_pos (by simpa using h)]
  · intro hlen a rest hdrop
    have hscan := classifyScan_eq_of_dropWhile attrs a rest hdrop
    have hmain : getProperyElementType attrs tokens = classifyOne a := by
      rw [getProperyElementType, if_neg (by simp; omega), hscan]
    refine ⟨hmain, ?_, ?_, ?_, ?_⟩
    · intro h1 h2
      rw [hmain, classifyOne, if_neg h1, if_neg h2]
    · intro h1
      rw [hmain, classifyOne, if_pos h1]
    · intro h1 h2
      have hdt : ¬ a.1 = nameRDFDataType := by
        rw [h1]
        decide
      have hL : ¬ a.2 = "Literal" := by
        rw [h2]
        decide
      rw [hmain, classifyOne, if_neg hdt, if_pos h1, if_neg hL, if_pos h2]
    · intro h1 h2
      have hdt : ¬ a.1 = nameRDFDataType := by
        rw [h1]
        decide
      rw [hmain, classifyOne, if_neg hdt, if_pos h1]
      by_cases hL : a.2 = "Literal"
      · rw [if_pos hL]
        exact Or.inl rfl
      · rw [if_neg hL, if_neg h2]
        by_cases hC : a.2 = "Collection"
        · rw [if_pos hC]
          exact Or.inr (Or.inl rfl)
        · rw [if_neg hC]
          exact Or.inr (Or.inr rfl)

/-- C4 witness: four attributes force EmptyProperty even with element
content, and a single `rdf:parseType="Resource"` attribute yields the
resource shorthand. -/
theorem claimC4_classifier_witness :
    getProperyElementType
        [(nTestQ, "1"), (⟨testNS, "b"⟩, "2"), (⟨testNS, "c"⟩, "3"), (⟨testNS, "d"⟩, "4")]
        [.start nTestQ []] = .emptyPropertyElt ∧
    getProperyElementType [(nameRDFParseType, "Resource")] [.charData "x"] =
      .parseTypeResourcePropertyElt := by
  constructor
  · exact (claimC4_classifier _ _).1 (by decide)
  · have h := ((claimC4_classifier [(nameRDFParseType, "Resource")] [.charData "x"]).2
      (by decide) (nameRDFParseType, "Resource") [] rfl).2.2.2.1 rfl rfl
    exact h

/-- C6.  The name validators: both reject an empty namespace, an empty
local part, a non-`rdf:type` name in the RDF namespace, and a
namespace that does not parse as a URI; the property validator rejects
every name in the XML namespace while the qualifier validator accepts
the XML namespace exactly for `xml:lang`; both accept `rdf:type`. -/
theorem claimC6_validators (n : XName) :
    (n.space = "" → isValidPropertyName n = false ∧ isValidQualifierName n = false) ∧
    (n.loc = "" → isValidPropertyName n = false ∧ isValidQualifierName n = false) ∧
    (n.space = rdfNamespace → n ≠ nameRDFType →
      isValidPropertyName n = false ∧ isValidQualifierName n = false) ∧
    (urlParse n.space = none →
      isValidPropertyName n = false ∧ isValidQualifierName n = false) ∧
    (n.space = xmlNamespace → isValidPropertyName n = false) ∧
    (n.space = xmlNamespace → (isValidQualifierName n = true ↔ n = nameXMLLang)) ∧
    (isValidPropertyName nameRDFType = true ∧ isValidQualifierName nameRDFType = true) := by
  refine ⟨?_, ?_, ?_, ?_, ?_, ?_, by decide⟩
  · intro h
    constructor
    · rw [isValidPropertyName, h]
      simp
    · rw [isValidQualifierName, h]
      simp
  · intro h
    constructor
    · rw [isValidPropertyName, h]
      have hn : IsNameStr "" = false := by decide
      simp [hn]
    · rw [isValidQualifierName, h]
      simp
  · intro h hne
    constructor
    · rw [isValidPropertyName, h]
      simp [hne]
    · rw [isValidQualifierName, h]
      simp [hne]
  · intro h
    constructor
    · rw [isValidPropertyName]
      simp [h]
    · rw [isValidQualifierName]
      simp [h]
  · intro h
    rw [isValidPropertyName, h]
    simp
  · intro h
    constructor
    · intro hv
      by_contra hne
      have hC3 : (decide (n.space = xmlNamespace) && decide (n ≠ nameXMLLang)) = true := by
        simp [h, hne]
      rw [isValidQualifierName] at hv
      by_cases h1 : (decide (n.space = "") || decide (n.loc = "")) = true
      · rw [if_pos h1] at hv
        exact absurd hv (by decide)
      · rw [if_neg h1] at hv
        by_cases h2 : (decide (n.space = rdfNamespace) && decide (n ≠ nameRDFType)) = true
        · rw [if_pos h2] at hv
          exact absurd hv (by decide)
        · rw [if_neg h2, if_pos hC3] at hv
          exact absurd hv (by decide)
    · intro he
      rw [he]
      decide

/-- C6 witness: the theorem applied at concrete names — the empty
namespace is rejected for both roles, `xml:q` is rejected as a
qualifier while `xml:lang` is accepted, and `rdf:type` is accepted for
both roles. -/
theorem claimC6_validators_witness :
    (isValidPropertyName ⟨"", "x"⟩ = false ∧ isValidQualifierName ⟨"", "x"⟩ = false) ∧
    isValidQualifierName ⟨xmlNamespace, "lang"⟩ = true ∧
    (isValidPropertyName nameRDFType = true ∧ isValidQualifierName nameRDFType = true) :=
  ⟨(claimC6_validators ⟨"", "x"⟩).1 rfl,
   ((claimC6_validators ⟨xmlNamespace, "lang"⟩).2.2.2.2.2.1 rfl).mpr rfl,
   (claimC6_validators ⟨"", "x"⟩).2.2.2.2.2.2⟩

/-- C5 counterexample.  The element `<test:prop rdf:resource=":"/>` is
classified as EmptyProperty and carries an `rdf:resource` attribute,
but the decoder produces no value at all (Go's `url.Parse(":")` fails
with "missing protocol scheme", and the branch returns `nil`), not a
`Uri` value as the claim states. -/
theorem claimC5_uriBranch_counterexample :
    getProperyElementType [(nameRDFResource, ":")] [] = .emptyPropertyElt ∧
    (∃ a ∈ [((nameRDFResource, ":") : Attr)], a.1 = nameRDFResource) ∧
    parseProp 2 nTestProp [(nameRDFResource, ":")] [] [] = none :=
  ⟨rfl, ⟨(nameRDFResource, ":"), by decide⟩, rfl⟩

/-- C5 amended.  For every element classified as EmptyProperty the
decoder inspects the attributes in a fixed priority: an `rdf:value`
attribute wins and gives a qualified `Text` (other valid-qualifier
attributes become qualifiers, and any inherited qualifiers are
dropped); otherwise an `rdf:resource` attribute gives a `Uri` with the
other valid-qualifier attributes as qualifiers, provided the attribute
value parses as a URL, and no value otherwise; otherwise, if only
`xml:lang`, `rdf:ID` or `rdf:nodeID` attributes remain (or none), the
result is an empty `Text` with `xml:lang` (if present) as its sole
qualifier; otherwise the result is a `Struct` whose fields are the
remaining valid-property-named attributes as simple text values, with
`xml:lang` attributes appended to the inherited qualifiers. -/
theorem claimC5_emptyProperty (fuel : Nat) (name : XName) (attrs : List Attr)
    (tokens : List Token) (qq : List Qual)
    (hc : getProperyElementType attrs tokens = .emptyPropertyElt) :
    parseProp (fuel + 1) name attrs tokens qq = parseEmptyProperty attrs qq ∧
    ((∃ a ∈ attrs, a.1 = nameRDFValue) →
      parseEmptyProperty attrs qq =
        some (.text (lastAttr attrs nameRDFValue) (attrs.filterMap (fun a =>
          if a.1 = nameRDFValue then none
          else if isValidQualifierName a.1 then some ((a.1, Raw.text a.2 []) : Qual)
          else none)))) ∧
    ((¬ ∃ a ∈ attrs, a.1 = nameRDFValue) → (∃ a ∈ attrs, a.1 = nameRDFResource) →
      parseEmptyProperty attrs qq =
        (match urlParse (lastAttr attrs nameRDFResource) with
         | none => none
         | some u => some (.uri u (qq ++ attrs.filterMap (fun a =>
             if a.1 = nameRDFResource then none
             else if isValidQualifierName a.1 then some ((a.1, Raw.text a.2 []) : Qual)
             else none))))) ∧
    ((∀ a ∈ attrs, a.1 = nameXMLLang ∨ a.1 = nameRDFID ∨ a.1 = nameRDFNodeID) →
      parseEmptyProperty attrs qq =
        (match attrs.find? (fun a => a.1 = nameXMLLang) with
         | some a => some (.text "" [(nameXMLLang, .text a.2 [])])
         | none => some (.text "" []))) ∧
    ((¬ ∃ a ∈ attrs, a.1 = nameRDFValue) → (¬ ∃ a ∈ attrs, a.1 = nameRDFResource) →
      (∃ a ∈ attrs, ¬(a.1 = nameXMLLang ∨ a.1 = nameRDFID ∨ a.1 = nameRDFNodeID)) →
      parseEmptyProperty attrs qq =
        some (.struct
          (attrs.foldl (fun fs a =>
            if a.1 = nameXMLLang then fs
            else if isValidPropertyName a.1 then putA fs a.1 (.text a.2 []) else fs) [])
          (qq ++ (attrs.filter (fun a => a.1 = nameXMLLang)).map
            (fun a => ((a.1, Raw.text a.2 []) : Qual))))) := by
  have hval : ∀ (p : Attr → Bool), (∃ a ∈ attrs, p a = true) ↔ attrs.any p = true := by
    intro p
    rw [List.any_eq_true]
  refine ⟨?_, ?_, ?_, ?_, ?_⟩
  · rw [parseProp, hc]
  · intro hs
    have hsb : attrs.any (fun a => a.1 = nameRDFValue) = true := by
      rw [List.any_eq_true]
      obtain ⟨a, ha, hav⟩ := hs
      exact ⟨a, ha, by simp [hav]⟩
    rw [parseEmptyProperty]
    simp only [hsb]
    rfl
  · intro hnv hr
    have hnvb : attrs.any (fun a => a.1 = nameRDFValue) = false := by
      rw [Bool.eq_false_iff]
      intro hx
      apply hnv
      obtain ⟨a, ha, hav⟩ := List.any_eq_true.mp hx
      exact ⟨a, ha, by simpa using hav⟩
    have hrb : attrs.any (fun a => a.1 = nameRDFResource) = true := by
      rw [List.any_eq_true]
      obtain ⟨a, ha, hav⟩ := hr
      exact ⟨a, ha, by simp [hav]⟩
    rw [parseEmptyProperty]
    simp only [hnvb, hrb]
    rfl
  · intro hall
    have hnvb : attrs.any (fun a => a.1 = nameRDFValue) = false := by
      rw [Bool.eq_false_iff]
      intro hx
      obtain ⟨a, ha, hav⟩ := List.any_eq_true.mp hx
      have hav2 : a.1 = nameRDFValue := by simpa using hav
      rcases hall a ha with h | h | h <;> rw [h] at hav2 <;>
        exact absurd hav2 (by decide)
    have hrb : attrs.any (fun a => a.1 = nameRDFResource) = false := by
      rw [Bool.eq_false_iff]
      intro hx
      obtain ⟨a, ha, hav⟩ := List.any_eq_true.mp hx
      have hav2 : a.1 = nameRDFResource := by simpa using hav
      rcases hall a ha with h | h | h <;> rw [h] at hav2 <;>
        exact absurd hav2 (by decide)
    have heb : attrs.all
        (fun a => a.1 = nameXMLLang || a.1 = nameRDFID || a.1 = nameRDFNodeID) = true := by
      rw [List.all_eq_true]
      intro a ha
      rcases hall a ha with h | h | h <;> simp [h]
    rw [parseEmptyProperty]
    simp only [hnvb, hrb, heb]
    rfl
  · intro hnv hnr hex
    have hnvb : attrs.any (fun a => a.1 = nameRDFValue) = false := by
      rw [Bool.eq_false_iff]
      intro hx
      apply hnv
      obtain ⟨a, ha, hav⟩ := List.any_eq_true.mp hx
      exact ⟨a, ha, by simpa using hav⟩
    have hnrb : attrs.any (fun a => a.1 = nameRDFResource) = false := by
      rw [Bool.eq_false_iff]
      intro hx
      apply hnr
      obtain ⟨a, ha, hav⟩ := List.any_eq_true.mp hx
      exact ⟨a, ha, by simpa using hav⟩
    have heb : attrs.all
        (fun a => a.1 = nameXMLLang || a.1 = nameRDFID || a.1 = nameRDFNodeID) = false := by
      rw [Bool.eq_false_iff]
      intro hx
      obtain ⟨a, ha, hna⟩ := hex
      have := List.all_eq_true.mp hx a ha
      simp at this
      tauto
    rw [parseEmptyProperty]
    simp only [hnvb, hnrb, heb]
    rfl

/-- C5 witness: the element
`<test:prop rdf:value="v" test:q="x"/>` is classified EmptyProperty and
decodes through the `rdf:value` branch to a qualified text. -/
theorem claimC5_emptyProperty_witness :
    parseProp 1 nTestProp [(nameRDFValue, "v"), (nTestQ, "x")] [] [] =
      some (.text "v" [(nTestQ, .text "x" [])]) := by
  obtain ⟨h1, h2, _⟩ :=
    claimC5_emptyProperty 0 nTestProp [(nameRDFValue, "v"), (nTestQ, "x")] [] [] rfl
  rw [h1, h2 ⟨(nameRDFValue, "v"), by decide⟩]
  rfl

theorem getA_putA_same (m : List (XName × Raw)) (k : XName) (v : Raw) :
    getA (putA m k v) k = some v := by
  induction m with
  | nil => simp [putA, getA]
  | cons hd tl ih =>
      rw [putA]
      by_cases hk : hd.1 = k
      · rw [if_pos hk, getA, if_pos rfl]
      · rw [if_neg hk, getA, if_neg hk]
        exact ih

theorem getA_putA_other (m : List (XName × Raw)) (k : XName) (v : Raw)
    (k2 : XName) (h : k2 ≠ k) : getA (putA m k v) k2 = getA m k2 := by
  induction m with
  | nil =>
      simp [putA, getA, (Ne.symm h : ¬ k = k2)]
  | cons hd tl ih =>
      rw [putA]
      by_cases hk : hd.1 = k
      · rw [if_pos hk, getA, getA,
          if_neg (fun hx => h hx.symm),
          if_neg (fun hx => h (hk.symm.trans hx).symm)]
      · rw [if_neg hk, getA, getA]
        by_cases h2 : hd.1 = k2
        · rw [if_pos h2, if_pos h2]
        · rw [if_neg h2, if_neg h2]
          exact ih

/-- C10.  `Packet.SetValue` panics exactly on invalid property names
(modelled as `none`); on a valid name it stores the raw form
(`value.GetXMP`) under that name and leaves every other property
unchanged. -/
theorem claimC10_setValue (p : PacketM) (ns loc2 : String) (v : ValueV) :
    (isValidPropertyName ⟨ns, loc2⟩ = false → setValue p ns loc2 v = none) ∧
    (isValidPropertyName ⟨ns, loc2⟩ = true →
      setValue p ns loc2 v = some ⟨p.about, putA p.props ⟨ns, loc2⟩ (getXMP v)⟩ ∧
      getA (putA p.props ⟨ns, loc2⟩ (getXMP v)) ⟨ns, loc2⟩ = some (getXMP v) ∧
      ∀ other, other ≠ ⟨ns, loc2⟩ →
        getA (putA p.props ⟨ns, loc2⟩ (getXMP v)) other = getA p.props other) := by
  constructor
  · intro h
    rw [setValue, if_pos]
    rw [h]
    rfl
  · intro h
    refine ⟨?_, getA_putA_same _ _ _, fun other ho => getA_putA_other _ _ _ _ ho⟩
    rw [setValue, if_neg (by rw [h]; decide), if_neg (by rw [h]; decide)]

/-- C10 witness: storing a text value under a valid test-namespace name
succeeds, and an invalid name (the XML namespace) panics. -/
theorem claimC10_setValue_witness :
    setValue ⟨none, []⟩ testNS "prop" (.vText "hi" []) =
      some ⟨none, [(nTestProp, .text "hi" [])]⟩ ∧
    setValue ⟨none, []⟩ xmlNamespace "x" (.vText "hi" []) = none := by
  constructor
  · have h := (claimC10_setValue ⟨none, []⟩ testNS "prop" (.vText "hi" [])).2 (by decide)
    exact h.1
  · exact (claimC10_setValue ⟨none, []⟩ xmlNamespace "x" (.vText "hi" [])).1 (by decide)

/-- A packet whose subject is split over two `rdf:Description`
elements, each carrying an `rdf:about` attribute. -/
def c9Stream (a1 a2 : String) : List Token :=
  [.start nameRDFRoot [], .start nameRDFDescription [(nameRDFAbout, a1)],
   .stop nameRDFDescription, .start nameRDFDescription [(nameRDFAbout, a2)],
   .stop nameRDFDescription, .stop nameRDFRoot]

/-- C9.  Repeated `rdf:Description` subject elements: two `rdf:about`
values that parse to distinct URLs abort `Read` with an error and no
packet; a repeated identical value, an unparseable second value, or an
absent/empty/unparseable first value all merge into one packet without
error. -/
theorem claimC9_aboutConsistency (a1 a2 u1 u2 : String) :
    (aboutOf a1 = some u1 → aboutOf a2 = some u2 → u2 ≠ u1 →
      read (c9Stream a1 a2) =
        .error ("inconsistent `about` attributes: " ++ u1 ++ " != " ++ u2)) ∧
    (aboutOf a1 = some u1 → aboutOf a2 = some u1 →
      read (c9Stream a1 a2) = .ok ⟨some u1, []⟩) ∧
    (aboutOf a1 = some u1 → aboutOf a2 = none →
      read (c9Stream a1 a2) = .ok ⟨some u1, []⟩) ∧
    (aboutOf a1 = none →
      read (c9Stream a1 a2) = .ok ⟨aboutOf a2, []⟩) := by
  have step : ∀ ab : Option String,
      readLoop [Token.start nameRDFDescription [(nameRDFAbout, a2)],
        Token.stop nameRDFDescription, Token.stop nameRDFRoot]
        ⟨1, -1, -1, [], ab, []⟩ =
      (match processDescAttrs [(nameRDFAbout, a2)] ab [] with
       | .error e => .error e
       | .ok (ab2, pr2) =>
          readLoop [Token.stop nameRDFDescription, Token.stop nameRDFRoot]
            (recordTok ⟨2, 2, -1, [], ab2, pr2⟩
              (Token.start nameRDFDescription [(nameRDFAbout, a2)]))) :=
    fun ab => rfl
  have start3 : read (c9Stream a1 a2) =
      readLoop [Token.start nameRDFDescription [(nameRDFAbout, a2)],
        Token.stop nameRDFDescription, Token.stop nameRDFRoot]
        ⟨1, -1, -1, [], aboutOf a1, []⟩ := rfl
  refine ⟨?_, ?_, ?_, ?_⟩
  · intro h1 h2 h3
    have hPD : processDescAttrs [(nameRDFAbout, a2)] (some u1) [] =
        .error ("inconsistent `about` attributes: " ++ u1 ++ " != " ++ u2) := by
      rw [processDescAttrs, if_pos rfl]
      show (match aboutOf a2 with
            | some u => if u ≠ u1 then
                Except.error ("inconsistent `about` attributes: " ++ u1 ++ " != " ++ u)
              else processDescAttrs [] (some u1) []
            | none => processDescAttrs [] (some u1) []) = _
      rw [h2]
      show (if u2 ≠ u1 then _ else _) = _
      rw [if_pos h3]
    rw [start3, h1, step, hPD]
  · intro h1 h2
    have hPD : processDescAttrs [(nameRDFAbout, a2)] (some u1) [] =
        .ok (some u1, []) := by
      rw [processDescAttrs, if_pos rfl]
      show (match aboutOf a2 with
            | some u => if u ≠ u1 then
                Except.error ("inconsistent `about` attributes: " ++ u1 ++ " != " ++ u)
              else processDescAttrs [] (some u1) []
            | none => processDescAttrs [] (some u1) []) = _
      rw [h2]
      show (if u1 ≠ u1 then _ else _) = _
      rw [if_neg (fun hx => hx rfl)]
      rfl
    rw [start3, h1, step, hPD]
    rfl
  · intro h1 h2
    have hPD : processDescAttrs [(nameRDFAbout, a2)] (some u1) [] =
        .ok (some u1, []) := by
      rw [processDescAttrs, if_pos rfl]
      show (match aboutOf a2 with
            | some u => if u ≠ u1 then
                Except.error ("inconsistent `about` attributes: " ++ u1 ++ " != " ++ u)
              else processDescAttrs [] (some u1) []
            | none => processDescAttrs [] (some u1) []) = _
      rw [h2]
      rfl
    rw [start3, h1, step, hPD]
    rfl
  · intro h1
    rw [start3, h1]
    rfl

/-- C9 witness: concrete abouts — conflicting values error, identical
values merge, and an unparseable second value merges. -/
theorem claimC9_aboutConsistency_witness :
    read (c9Stream "http://a/" "http://b/") =
      .error "inconsistent `about` attributes: http://a/ != http://b/" ∧
    read (c9Stream "http://a/" "http://a/") = .ok ⟨some "http://a/", []⟩ ∧
    read (c9Stream "http://a/" ":") = .ok ⟨some "http://a/", []⟩ := by
  refine ⟨?_, ?_, ?_⟩
  · have h := (claimC9_aboutConsistency "http://a/" "http://b/" "http://a/" "http://b/").1
      rfl rfl (by decide)
    exact h
  · exact (claimC9_aboutConsistency "http://a/" "http://a/" "http://a/" "").2.1 rfl rfl
  · exact (claimC9_aboutConsistency "http://a/" ":" "http://a/" "").2.2.1 rfl rfl

end Xmp
